import Mathlib

/-!
Verification of the Gate-A structural validator (`scripts/gate_a_check.py`).

Text is modelled as `List Char` (`ChStr`), mirroring Python `str` as a
sequence of code points.  Regular-expression matching is embedded
concretely for the fixed patterns the validator uses:

* `ID_PATTERN   = \b(HR|DEC|REQ|SCN|CHG|EVD)-(\d{3,})\b`
* `DOMAIN_HR_PATTERN = \b([A-Z]+)-HR-(\d{3,})\b`
* `EVD` references    `EVD-\d{3,}` (no word boundaries)

For these patterns the backtracking search of Python's `re` engine is
deterministic (each greedy sub-pattern is pinned by the literal that
follows it), so a match attempt at a position reduces to the explicit
functions `idMatchLen` / `domainMatchLen` / `evdMatchLen` below, and
`finditer`'s left-to-right non-overlapping scan is the fueled scanner
`scanBAux` / `scanNBAux` (the fuel is the input length, which always
suffices; a match consumes at least one character).

`\w` (hence `\b`) is modelled by `isWordChar`: ASCII alphanumerics,
underscore, and CJK unified ideographs — the character classes occurring
in this repository's documents.  Python treats CJK characters as word
characters, which is why e.g. `这里HR-001` yields no `ID_PATTERN` match.
-/

abbrev ChStr := List Char

def chs (s : String) : ChStr := s.data

/-- Python `str.strip()` whitespace class (ASCII part, which is what the
validator's documents use). -/
def isPySpace (c : Char) : Bool :=
  c = ' ' || c = '\t' || c = '\n' || c = '\r' || c = '\x0b' || c = '\x0c'

/-- Python `str.strip()`. -/
def pyStrip (s : ChStr) : ChStr :=
  ((s.dropWhile isPySpace).reverse.dropWhile isPySpace).reverse

/-- Python `str.split('\n')`: every newline separates, empty pieces kept. -/
def splitNl : ChStr → List ChStr
  | [] => [[]]
  | c :: rest =>
    if c = '\n' then [] :: splitNl rest
    else
      match splitNl rest with
      | s :: ss => (c :: s) :: ss
      | [] => [[c]]

/-- Python `'\n'.join(..)`. -/
def joinNl : List ChStr → ChStr
  | [] => []
  | [s] => s
  | s :: rest => s ++ '\n' :: joinNl rest

/-- Python `sub in s` (substring containment). -/
def containsSub (sub : ChStr) : ChStr → Bool
  | [] => sub.isEmpty
  | c :: t => sub.isPrefixOf (c :: t) || containsSub sub t

/-- The `\w` class as Python's `re` sees the characters these documents
contain: ASCII alphanumerics, underscore, CJK unified ideographs. -/
def isWordChar (c : Char) : Bool :=
  c.isAlphanum || c = '_' || (0x4e00 ≤ c.toNat && c.toNat ≤ 0x9fff)

/-- Length of the maximal leading run of `\d`. -/
def digitRun : ChStr → Nat
  | [] => 0
  | c :: rest => if c.isDigit then digitRun rest + 1 else 0

/-- Length of the maximal leading run of `[A-Z]`. -/
def upperRun : ChStr → Nat
  | [] => 0
  | c :: rest => if c.isUpper then upperRun rest + 1 else 0

/-- `\b` after a digit run: end of input or a non-word character. -/
def boundaryAfter (s : ChStr) : Bool :=
  match s with
  | [] => true
  | c :: _ => !isWordChar c

/-- One `re` match: `start`/`stop` are the character span in the scanned
string, `grp1`/`grp2` the two capture groups. -/
structure RMatch where
  start : Nat
  stop : Nat
  grp1 : ChStr
  grp2 : ChStr
deriving DecidableEq, Repr

def idKinds : List ChStr := [chs "HR", chs "DEC", chs "REQ", chs "SCN", chs "CHG", chs "EVD"]

/-- The alternation `(HR|DEC|REQ|SCN|CHG|EVD)` tried in order (the
alternatives have pairwise distinct first characters, so at most one can
match at a given position). -/
def idKindAt (s : ChStr) : Option ChStr := idKinds.find? (fun k => k.isPrefixOf s)

/-- A match attempt of `ID_PATTERN` at the head of `s`, with the leading
`\b` checked by the caller.  Returns `(group 1, group 2, match length)`.
The trailing `\b` cannot be repaired by giving back digits (a digit is a
word character), so the greedy `\d{3,}` is exactly the maximal digit run. -/
def idMatchLen (s : ChStr) : Option (ChStr × ChStr × Nat) :=
  match idKindAt s with
  | none => none
  | some k =>
    match s.drop k.length with
    | [] => none
    | c :: r =>
      if c = '-' then
        let d := digitRun r
        if 3 ≤ d && boundaryAfter (r.drop d) then some (k, r.take d, k.length + 1 + d)
        else none
      else none

/-- A match attempt of `DOMAIN_HR_PATTERN` at the head of `s` (leading
`\b` checked by the caller).  The greedy `[A-Z]+` cannot backtrack: a
shorter run would leave an uppercase letter where the literal `-HR-`
must start, so only the maximal run can succeed. -/
def domainMatchLen (s : ChStr) : Option (ChStr × ChStr × Nat) :=
  let u := upperRun s
  if u = 0 then none
  else
    let r := s.drop u
    if (chs "-HR-").isPrefixOf r then
      let d := digitRun (r.drop 4)
      if 3 ≤ d && boundaryAfter (r.drop (4 + d)) then some (s.take u, (r.drop 4).take d, u + 4 + d)
      else none
    else none

/-- A match attempt of `EVD-\d{3,}` at the head of `s` (no boundaries). -/
def evdMatchLen (s : ChStr) : Option (ChStr × ChStr × Nat) :=
  if (chs "EVD-").isPrefixOf s then
    let d := digitRun (s.drop 4)
    if 3 ≤ d then some (chs "EVD", (s.drop 4).take d, 4 + d) else none
  else none

/-- `re.finditer` for a pattern starting `\b` + word character: attempt a
match wherever the previous character is not a word character (`prev`
tracks that), emit it and resume after its end.  `fuel` is initially the
input length, which suffices since a match consumes ≥ 1 character. -/
def scanBAux (f : ChStr → Option (ChStr × ChStr × Nat)) :
    Nat → ChStr → Nat → Bool → List RMatch
  | 0, _, _, _ => []
  | _ + 1, [], _, _ => []
  | fuel + 1, c :: rest, pos, prev =>
    if prev then scanBAux f fuel rest (pos + 1) (isWordChar c)
    else
      match f (c :: rest) with
      | some (a, b, len) =>
        ⟨pos, pos + len, a, b⟩ :: scanBAux f fuel (rest.drop (len - 1)) (pos + len) true
      | none => scanBAux f fuel rest (pos + 1) (isWordChar c)

def scanB (f : ChStr → Option (ChStr × ChStr × Nat)) (s : ChStr) : List RMatch :=
  scanBAux f s.length s 0 false

/-- `re.finditer` for a pattern with no leading boundary: attempt at
every position, resume after each match. -/
def scanNBAux (f : ChStr → Option (ChStr × ChStr × Nat)) :
    Nat → ChStr → Nat → List RMatch
  | 0, _, _ => []
  | _ + 1, [], _ => []
  | fuel + 1, c :: rest, pos =>
    match f (c :: rest) with
    | some (a, b, len) =>
      ⟨pos, pos + len, a, b⟩ :: scanNBAux f fuel (rest.drop (len - 1)) (pos + len)
    | none => scanNBAux f fuel rest (pos + 1)

def scanNB (f : ChStr → Option (ChStr × ChStr × Nat)) (s : ChStr) : List RMatch :=
  scanNBAux f s.length s 0

/-- `ID_PATTERN.finditer(text)`. -/
def idFinditer (s : ChStr) : List RMatch := scanB idMatchLen s

/-- `DOMAIN_HR_PATTERN.finditer(text)`. -/
def domainFinditer (s : ChStr) : List RMatch := scanB domainMatchLen s

/-- `re.finditer(r'EVD-\d{3,}', text)`. -/
def evdFinditer (s : ChStr) : List RMatch := scanNB evdMatchLen s

/-- `f"{m.group(1)}-{m.group(2)}"` for an `ID_PATTERN` match. -/
def idCanon (m : RMatch) : ChStr := m.grp1 ++ chs "-" ++ m.grp2

/-- `f"{m.group(1)}-HR-{m.group(2)}"` for a `DOMAIN_HR_PATTERN` match. -/
def domainCanon (m : RMatch) : ChStr := m.grp1 ++ chs "-HR-" ++ m.grp2

/-- `m.group()` for an `EVD-\d{3,}` match. -/
def evdGroup (m : RMatch) : ChStr := chs "EVD-" ++ m.grp2

/-- `_domain_hr_spans`: character spans of domain-prefixed HR matches. -/
def domain_hr_spans (text : ChStr) : List (Nat × Nat) :=
  (domainFinditer text).map (fun m => (m.start, m.stop))

/-- `_is_inside_domain_hr`: does an `ID_PATTERN` span fall within a
`DOMAIN_HR` span? -/
def is_inside_domain_hr (pos stop : Nat) (spans : List (Nat × Nat)) : Bool :=
  spans.any (fun se => se.1 ≤ pos && stop ≤ se.2)

/-- `extract_ids`: all ID references in the text.  The Python function
builds a `set`; here the result is a list read up to membership. -/
def extract_ids (text : ChStr) : List ChStr :=
  let spans := domain_hr_spans text
  ((idFinditer text).filter
      (fun m => !(is_inside_domain_hr m.start m.stop spans))).map idCanon
    ++ (domainFinditer text).map domainCanon

/-- The character class `[-*>#\d.]` of the leading-marker regex. -/
def isMarkerChar (c : Char) : Bool :=
  c = '-' || c = '*' || c = '>' || c = '#' || c = '.' || c.isDigit

/-- Length of the maximal leading run of `[-*>#\d.]`. -/
def markerRun : ChStr → Nat
  | [] => 0
  | c :: rest => if isMarkerChar c then markerRun rest + 1 else 0

/-- `re.match(r'^[-*>#\d.]+\s*' + re.escape(full_id), stripped)`:
deterministic because the id starts with an uppercase letter, which is
neither a marker character nor whitespace, so neither greedy part can
backtrack. -/
def bulletDefMatch (s fullId : ChStr) : Bool :=
  let r := markerRun s
  decide (1 ≤ r) && fullId.isPrefixOf ((s.drop r).dropWhile isPySpace)

/-- `re.match(r'^\|\s*' + re.escape(full_id), stripped)`. -/
def tableDefMatch (s fullId : ChStr) : Bool :=
  match s with
  | [] => false
  | c :: rest => c = '|' && fullId.isPrefixOf (rest.dropWhile isPySpace)

/-- The definition-position test of `extract_defined_ids`: the stripped
line starts with the id, or with markers then the id, or with `|` then
the id. -/
def isDefLine (s fullId : ChStr) : Bool :=
  fullId.isPrefixOf s || bulletDefMatch s fullId || tableDefMatch s fullId

/-- One line's contribution to `extract_defined_ids`: the canonical id
of every non-suppressed match, paired with whether the line presents it
at a definition position. -/
def lineIdOccurrences (stripped : ChStr) : List (ChStr × Bool) :=
  let spans := domain_hr_spans stripped
  ((idFinditer stripped).filter
      (fun m => !(is_inside_domain_hr m.start m.stop spans))).map
      (fun m => (idCanon m, isDefLine stripped (idCanon m)))
    ++ (domainFinditer stripped).map
      (fun m => (domainCanon m, isDefLine stripped (domainCanon m)))

/-- `extract_defined_ids`: `(defined, all_ids)`.  The Python sets are
lists read up to membership. -/
def extract_defined_ids (text : ChStr) : List ChStr × List ChStr :=
  let occs := ((splitNl text).map pyStrip).flatMap lineIdOccurrences
  ((occs.filter (fun p => p.2)).map (fun p => p.1), occs.map (fun p => p.1))

/-- One line's contribution to `id_def_count` in `check_2_id_integrity`:
generic ids are counted only when the stripped line starts with them;
domain-prefixed ids when the line starts with them or matches the
leading-marker pattern (the table-cell pattern is NOT consulted here). -/
def check2LineCountedDefs (stripped : ChStr) : List ChStr :=
  let spans := domain_hr_spans stripped
  ((idFinditer stripped).filter
      (fun m => !(is_inside_domain_hr m.start m.stop spans))).filterMap
      (fun m => if (idCanon m).isPrefixOf stripped then some (idCanon m) else none)
    ++ (domainFinditer stripped).filterMap
      (fun m =>
        if (domainCanon m).isPrefixOf stripped || bulletDefMatch stripped (domainCanon m)
        then some (domainCanon m) else none)

/-- All counted definition occurrences of the document, in scan order. -/
def check2CountedDefs (text : ChStr) : List ChStr :=
  ((splitNl text).map pyStrip).flatMap check2LineCountedDefs

/-- First-occurrence deduplication (insertion order of a Python dict). -/
def dedupAux (seen : List ChStr) : List ChStr → List ChStr
  | [] => []
  | x :: xs => if seen.contains x then dedupAux seen xs else x :: dedupAux (x :: seen) xs

def dedupKeepFirst (l : List ChStr) : List ChStr := dedupAux [] l

def natStr (n : Nat) : ChStr := (Nat.repr n).data

def dupMsg (id : ChStr) (n : Nat) : ChStr :=
  chs "Duplicate ID definition: " ++ id ++ chs " (defined " ++ natStr n ++ chs " times)"

/-- The duplicate-definition issues of check 2: one per counted id whose
occurrence count exceeds 1, in first-occurrence order. -/
def check2DupIssues (text : ChStr) : List ChStr :=
  let counted := check2CountedDefs text
  (dedupKeepFirst counted).filterMap
    (fun id => if 2 ≤ counted.count id then some (dupMsg id (counted.count id)) else none)

/-- Code-point lexicographic order on strings (Python `<` on `str`). -/
def chLe : ChStr → ChStr → Bool
  | [], _ => true
  | _ :: _, [] => false
  | a :: x, b :: y => if a = b then chLe x y else decide (a < b)

def insertSorted (x : ChStr) : List ChStr → List ChStr
  | [] => [x]
  | y :: ys => if chLe x y then x :: y :: ys else y :: insertSorted x ys

/-- Python `sorted(..)` on a set of strings. -/
def sortStr (l : List ChStr) : List ChStr := l.foldr insertSorted []

def danglingMsg (id : ChStr) : ChStr :=
  chs "Dangling reference: " ++ id ++ chs " (referenced but not defined)"

/-- `sorted(dangling)` of check 2: `referenced = all_ids - defined` and
`dangling = referenced - defined`, which is the same set. -/
def check2Dangling (text : ChStr) : List ChStr :=
  let da := extract_defined_ids text
  sortStr (dedupKeepFirst (da.2.filter (fun i => !(da.1.contains i))))

/-- The dangling-reference issues of check 2: `sorted(dangling)[:10]`. -/
def check2DanglingIssues (text : ChStr) : List ChStr :=
  ((check2Dangling text).take 10).map danglingMsg

/-- `CheckResult`: `passed` starts `True` and `fail()` flips it, so the
final value is "no issue was recorded". -/
structure CheckResult where
  name : ChStr
  kind : ChStr
  passed : Bool
  issues : List ChStr
  warnings : List ChStr
deriving DecidableEq

/-- `check_2_id_integrity`. -/
def check_2_id_integrity (text : ChStr) : CheckResult :=
  let issues := check2DupIssues text ++ check2DanglingIssues text
  ⟨chs "2. ID integrity & references", chs "hard", issues.isEmpty, issues, []⟩

/-- `re.match(r'SCN-\d{3,}', stripped)` (anchored, no boundaries). -/
def reMatchScn (s : ChStr) : Bool :=
  (chs "SCN-").isPrefixOf s && decide (3 ≤ digitRun (s.drop 4))

/-- `re.match(r'(HR|DEC|REQ|CHG)-\d{3,}', stripped)`. -/
def reMatchHrDecReqChg (s : ChStr) : Bool :=
  [chs "HR-", chs "DEC-", chs "REQ-", chs "CHG-"].any
    (fun k => k.isPrefixOf s && decide (3 ≤ digitRun (s.drop k.length)))

/-- The WHEN/THEN scan of `check_5_readability` over the pre-stripped
lines, with 1-based line numbers and the `(in_scn, scn_id)` state. -/
def check5WhenThenAux : List ChStr → Nat → Bool → ChStr → List ChStr
  | [], _, _, _ => []
  | stripped :: rest, i, inScn, scnId =>
    let st :=
      if reMatchScn stripped then (true, stripped.take 8)
      else if inScn &&
          ((chs "#").isPrefixOf stripped || stripped.isEmpty || reMatchHrDecReqChg stripped)
        then (false, scnId)
      else (inScn, scnId)
    let here :=
      if st.1 && containsSub (chs "WHEN") stripped && containsSub (chs "THEN") stripped
      then [chs "Line " ++ natStr i ++ chs ": " ++ st.2
              ++ chs " has WHEN and THEN on same line (must be separate lines)"]
      else []
    here ++ check5WhenThenAux rest (i + 1) st.1 st.2

def check5WhenThenIssues (text : ChStr) : List ChStr :=
  check5WhenThenAux ((splitNl text).map pyStrip) 1 false []

def isFenceLine (s : ChStr) : Bool := (chs "```").isPrefixOf s

/-- A stripped line that the paragraph-length scan counts as running
text: non-empty and not starting with `#`, `-`, `|` or `>` (the code's
heading / list-item / table-row / quote-line tests). -/
def isPlainTextLine (s : ChStr) : Bool :=
  !s.isEmpty && !(chs "#").isPrefixOf s && !(chs "-").isPrefixOf s
    && !(chs "|").isPrefixOf s && !(chs ">").isPrefixOf s

def parMsg (i : Nat) : ChStr :=
  chs "Line " ++ natStr i ++ chs ": consecutive text paragraph exceeds 10 lines (break into list/table)"

/-- The paragraph-length scan of `check_5_readability`: fence lines
toggle `in_block` and reset the counter; lines inside a block are
skipped; a counted text line fires an issue when the count exceeds 10
and then resets the counter. -/
def check5ParAux : List ChStr → Nat → Bool → Nat → List ChStr
  | [], _, _, _ => []
  | stripped :: rest, i, inBlock, cnt =>
    if isFenceLine stripped then check5ParAux rest (i + 1) (!inBlock) 0
    else if inBlock then check5ParAux rest (i + 1) inBlock cnt
    else if isPlainTextLine stripped then
      if 10 < cnt + 1 then parMsg i :: check5ParAux rest (i + 1) inBlock 0
      else check5ParAux rest (i + 1) inBlock (cnt + 1)
    else check5ParAux rest (i + 1) inBlock 0

def check5ParagraphIssues (text : ChStr) : List ChStr :=
  check5ParAux ((splitNl text).map pyStrip) 1 false 0

/-- `check_5_readability`: the WHEN/THEN loop runs first, then the
paragraph-length loop. -/
def check_5_readability (text : ChStr) : CheckResult :=
  let issues := check5WhenThenIssues text ++ check5ParagraphIssues text
  ⟨chs "5. Readability", chs "hard", issues.isEmpty, issues, []⟩

/-- An evidence-store item, modelled as the string-valued fields of the
JSON object (which is all the dangling-evidence scan of `check_7`
consults). -/
abbrev EvItem := List (ChStr × ChStr)

/-- `item.get(key, "")`. -/
def itemGetStr (item : EvItem) (key : ChStr) : ChStr :=
  match item.find? (fun kv => kv.1 == key) with
  | some kv => kv.2
  | none => []

/-- `evd_ids_in_json`: check 7 reads each item's `"evd_id"` field. -/
def check7EvdIdsInJson (items : List EvItem) : List ChStr :=
  items.map (fun it => itemGetStr it (chs "evd_id"))

/-- `missing_evd = rfc_evd_refs - evd_ids_in_json` (a set; first-occurrence
list here). -/
def check7MissingEvd (text : ChStr) (items : List EvItem) : List ChStr :=
  (dedupKeepFirst ((evdFinditer text).map evdGroup)).filter
    (fun e => !((check7EvdIdsInJson items).contains e))

def evdMissingMsg (e : ChStr) : ChStr :=
  chs "EVD referenced in rfc.md but missing in evidence.json: " ++ e

/-- Part A of `check_7_evidence`: dangling-evidence issues, raised only
when the store's `items` list is non-empty, for `sorted(missing)[:5]`. -/
def check7DanglingEvidenceIssues (text : ChStr) (items : List EvItem) : List ChStr :=
  if items.isEmpty then []
  else ((sortStr (check7MissingEvd text items)).take 5).map evdMissingMsg

/-- Length of the maximal leading run of `#`. -/
def hashRun : ChStr → Nat
  | [] => 0
  | c :: rest => if c = '#' then hashRun rest + 1 else 0

/-- `re.match(r'^(#{1,6})\s+(.+)', stripped)`: `(depth, title)`.  With at
least 7 leading `#` no split can put whitespace after the hashes, so
there is no match; the title is what follows the maximal whitespace run
(the input is a stripped line, so it has no trailing whitespace). -/
def headingShape (stripped : ChStr) : Option (Nat × ChStr) :=
  let n := hashRun stripped
  if 1 ≤ n && n ≤ 6 then
    match stripped.drop n with
    | [] => none
    | c :: rest =>
      if isPySpace c then
        let t := (c :: rest).dropWhile isPySpace
        if t.isEmpty then none else some (n, t)
      else none
  else none

/-- The accumulation loop of `_extract_section` once inside the section:
stop (exclusively) at the first heading of depth ≤ the opening depth. -/
def extractSectionGo (lvl : Nat) : List ChStr → List ChStr
  | [] => []
  | stripped :: rest =>
    match headingShape stripped with
    | some kt => if kt.1 ≤ lvl then [] else stripped :: extractSectionGo lvl rest
    | none => stripped :: extractSectionGo lvl rest

/-- The search loop of `_extract_section`: find the first heading whose
title satisfies `pat` (the embedding of
`re.search(heading_pattern, title, re.IGNORECASE)`), then accumulate. -/
def extractSectionFind (pat : ChStr → Bool) : List ChStr → Option (List ChStr)
  | [] => none
  | stripped :: rest =>
    match headingShape stripped with
    | some kt =>
      if pat kt.2 then some (stripped :: extractSectionGo kt.1 rest)
      else extractSectionFind pat rest
    | none => extractSectionFind pat rest

/-- `_extract_section(rfc, heading_pattern)`; `pat` abstracts the
case-insensitive regex search against the heading title.  The Python
function returns `None` exactly when `section_lines` stays empty. -/
def extract_section (text : ChStr) (pat : ChStr → Bool) : Option ChStr :=
  (extractSectionFind pat ((splitNl text).map pyStrip)).map joinNl

/-- `run_gate_a`'s aggregate report. -/
structure GateReport where
  hard_pass : List ChStr
  hard_fail : List ChStr
  soft_warn : List ChStr
  overall : ChStr
  details : List (ChStr × (Bool × List ChStr × List ChStr))
deriving DecidableEq

/-- `run_gate_a`: three-state aggregation of hard and soft results. -/
def run_gate_a (hard_results soft_results : List CheckResult) : GateReport :=
  let hard_pass := (hard_results.filter (fun r => r.passed)).map (fun r => r.name)
  let hard_fail := (hard_results.filter (fun r => !r.passed)).map (fun r => r.name)
  let soft_warn := (soft_results.filter (fun r => !r.warnings.isEmpty)).map (fun r => r.name)
  let details := (hard_results ++ soft_results).map
    (fun r => (r.name, (r.passed, r.issues, r.warnings)))
  let overall :=
    if !hard_fail.isEmpty then chs "FAIL"
    else if !soft_warn.isEmpty then chs "WARN"
    else chs "PASS"
  ⟨hard_pass, hard_fail, soft_warn, overall, details⟩

/-- The resolved configuration: the eight keys of `DEFAULT_CONFIG`. -/
structure GateConfig where
  min_scn_categories : List ChStr
  reject_categories : List ChStr
  allowed_lang_tags : List ChStr
  meta_fields : List ChStr
  review_keywords : List ChStr
  normative_keywords : List ChStr
  heading_category_map : List (ChStr × ChStr)
  placeholder_patterns : List ChStr
deriving DecidableEq

/-- `DEFAULT_CONFIG` of `gate_a_check.py`, verbatim. -/
def DEFAULT_CONFIG : GateConfig where
  min_scn_categories :=
    [chs "normal", chs "reject_authn", chs "reject_authz",
     chs "limits_quota", chs "dependency_down", chs "abuse"]
  reject_categories := [chs "reject_authn", chs "reject_authz"]
  allowed_lang_tags :=
    [chs "", chs "text", chs "contract", chs "json", chs "mermaid", chs "bash"]
  meta_fields := [chs "template_id", chs "template_version", chs "strictness"]
  review_keywords := [chs "背景", chs "痛点", chs "目标", chs "结论", chs "方案", chs "影响"]
  normative_keywords := [chs "安全", chs "可靠", chs "验收", chs "决策", chs "可观测"]
  heading_category_map :=
    [(chs "normal", chs "normal"), (chs "正常", chs "normal"),
     (chs "authn", chs "reject_authn"), (chs "authz", chs "reject_authz"),
     (chs "权限", chs "reject_authz"), (chs "越权", chs "reject_authz"),
     (chs "reject", chs "reject_authz"),
     (chs "limits", chs "limits_quota"), (chs "quota", chs "limits_quota"),
     (chs "非法值", chs "limits_quota"), (chs "边界", chs "limits_quota"),
     (chs "dependency", chs "dependency_down"), (chs "依赖", chs "dependency_down"),
     (chs "故障", chs "dependency_down"), (chs "recovery", chs "dependency_down"),
     (chs "abuse", chs "abuse"), (chs "滥用", chs "abuse"), (chs "鲁棒", chs "abuse")]
  placeholder_patterns :=
    [chs "(?<![A-Za-z])TBD(?![A-Za-z])", chs "(?<![A-Za-z])XXX(?![A-Za-z])",
     chs "(?<![A-Za-z])TODO(?![A-Za-z])", chs "(?<![A-Za-z])FIXME(?![A-Za-z])",
     chs "<\\.\\.\\.>"]

/-- A parsed override file: the top-level keys it supplies among the
default keys.  Unknown keys are ignored by every consumer of the
configuration, so they do not appear in the model. -/
structure ConfigOverrides where
  min_scn_categories : Option (List ChStr) := none
  reject_categories : Option (List ChStr) := none
  allowed_lang_tags : Option (List ChStr) := none
  meta_fields : Option (List ChStr) := none
  review_keywords : Option (List ChStr) := none
  normative_keywords : Option (List ChStr) := none
  heading_category_map : Option (List (ChStr × ChStr)) := none
  placeholder_patterns : Option (List ChStr) := none

/-- `cfg.update(overrides)`: each key present in the override replaces
the default wholesale. -/
def dictUpdate (cfg : GateConfig) (ov : ConfigOverrides) : GateConfig where
  min_scn_categories := ov.min_scn_categories.getD cfg.min_scn_categories
  reject_categories := ov.reject_categories.getD cfg.reject_categories
  allowed_lang_tags := ov.allowed_lang_tags.getD cfg.allowed_lang_tags
  meta_fields := ov.meta_fields.getD cfg.meta_fields
  review_keywords := ov.review_keywords.getD cfg.review_keywords
  normative_keywords := ov.normative_keywords.getD cfg.normative_keywords
  heading_category_map := ov.heading_category_map.getD cfg.heading_category_map
  placeholder_patterns := ov.placeholder_patterns.getD cfg.placeholder_patterns

/-- Outcome of trying to read and JSON-parse the override file:
absent (`FileNotFoundError`), malformed (`json.JSONDecodeError`), or a
parsed top-level object. -/
inductive ConfigRead where
  | absent
  | malformed
  | parsed (ov : ConfigOverrides)

/-- `load_config`: deep-copy the defaults (a pure value here), then
apply the parsed override if reading succeeded; both failure modes are
swallowed by the `except` clause and leave the copied defaults. -/
def load_config : ConfigRead → GateConfig
  | .parsed ov => dictUpdate DEFAULT_CONFIG ov
  | _ => DEFAULT_CONFIG

/-!
Heap model of `load_config` for the aliasing claim.  A Python run-time
store maps addresses to collection values; the configuration dict is a
record of one address per key.  `copy.deepcopy(DEFAULT_CONFIG)` hands
out eight freshly allocated cells whose contents are copied from the
cells the defaults own; `cfg.update(overrides)` installs the freshly
parsed override values.  Mutating a collection through one dict must
then be invisible through any other dict.
-/

/-- A Python collection value: a list of strings or a dict of
string-to-string entries (the value shapes in `DEFAULT_CONFIG`). -/
inductive PyVal where
  | strs (xs : List ChStr)
  | pairs (m : List (ChStr × ChStr))
deriving DecidableEq

/-- The mutable store: total map from addresses to collection values
plus an allocation frontier. -/
structure PyHeap where
  cells : Nat → PyVal
  next : Nat

/-- In-place mutation of the collection at address `a`. -/
def heapWrite (h : PyHeap) (a : Nat) (v : PyVal) : PyHeap :=
  ⟨fun b => if b = a then v else h.cells b, h.next⟩

/-- The eight keys of the configuration dict. -/
inductive CfgField where
  | min_scn_categories
  | reject_categories
  | allowed_lang_tags
  | meta_fields
  | review_keywords
  | normative_keywords
  | heading_category_map
  | placeholder_patterns
deriving DecidableEq

def cfgFieldIdx : CfgField → Nat
  | .min_scn_categories => 0
  | .reject_categories => 1
  | .allowed_lang_tags => 2
  | .meta_fields => 3
  | .review_keywords => 4
  | .normative_keywords => 5
  | .heading_category_map => 6
  | .placeholder_patterns => 7

def cfgFieldOfIdx : Nat → CfgField
  | 0 => .min_scn_categories
  | 1 => .reject_categories
  | 2 => .allowed_lang_tags
  | 3 => .meta_fields
  | 4 => .review_keywords
  | 5 => .normative_keywords
  | 6 => .heading_category_map
  | _ => .placeholder_patterns

/-- A configuration dict: the address its collection lives at, per key. -/
abbrev CfgObj := CfgField → Nat

/-- The collection values of `DEFAULT_CONFIG`, for the initial store. -/
def cfgDefaultVal : CfgField → PyVal
  | .min_scn_categories => .strs DEFAULT_CONFIG.min_scn_categories
  | .reject_categories => .strs DEFAULT_CONFIG.reject_categories
  | .allowed_lang_tags => .strs DEFAULT_CONFIG.allowed_lang_tags
  | .meta_fields => .strs DEFAULT_CONFIG.meta_fields
  | .review_keywords => .strs DEFAULT_CONFIG.review_keywords
  | .normative_keywords => .strs DEFAULT_CONFIG.normative_keywords
  | .heading_category_map => .pairs DEFAULT_CONFIG.heading_category_map
  | .placeholder_patterns => .strs DEFAULT_CONFIG.placeholder_patterns

/-- `load_config` on the heap: `copy.deepcopy` allocates eight fresh
cells copying the defaults' collections, then `cfg.update` installs the
override values (themselves fresh objects out of `json.load`) for the
keys the override supplies.  Only fresh cells (`h.next ≤ a`) are
written; every pre-existing cell keeps its value. -/
def load_config_heap (h : PyHeap) (defaults : CfgObj) (ov : CfgField → Option PyVal) :
    CfgObj × PyHeap :=
  ((fun f => h.next + cfgFieldIdx f),
    ⟨fun a =>
      if h.next ≤ a ∧ a < h.next + 8 then
        match ov (cfgFieldOfIdx (a - h.next)) with
        | some v => v
        | none => h.cells (defaults (cfgFieldOfIdx (a - h.next)))
      else h.cells a,
    h.next + 8⟩)

/-- The store at interpreter start: the embedded `DEFAULT_CONFIG`'s
eight collections live at addresses 0–7. -/
def initHeap : PyHeap :=
  ⟨fun a => if a < 8 then cfgDefaultVal (cfgFieldOfIdx a) else .strs [], 8⟩

/-- The module-level `DEFAULT_CONFIG` dict of the initial store. -/
def defaultObj : CfgObj := cfgFieldIdx

/-! ### Supporting lemmas -/

theorem contains_iff_mem (l : List ChStr) (x : ChStr) : l.contains x = true ↔ x ∈ l := by
  simp [List.contains]

theorem mem_dedupAux (x : ChStr) :
    ∀ (l seen : List ChStr), x ∈ dedupAux seen l ↔ x ∈ l ∧ x ∉ seen := by
  intro l
  induction l with
  | nil => intro seen; simp [dedupAux]
  | cons y ys ih =>
    intro seen
    rw [dedupAux]
    by_cases hy : seen.contains y = true
    · rw [if_pos hy, ih]
      rw [contains_iff_mem] at hy
      by_cases hxy : x = y
      · subst hxy
        simp [hy]
      · simp [List.mem_cons, hxy]
    · rw [if_neg hy]
      have hy' : y ∉ seen := fun h => hy ((contains_iff_mem _ _).2 h)
      by_cases hxy : x = y
      · subst hxy
        simp [hy']
      · simp [List.mem_cons, hxy, ih]

theorem mem_dedupKeepFirst (x : ChStr) (l : List ChStr) :
    x ∈ dedupKeepFirst l ↔ x ∈ l := by
  rw [dedupKeepFirst, mem_dedupAux]; simp

/-! ### C4 — malformed or absent override falls back to the defaults -/

/-- C4: configuration resolution is a total function of the read
outcome (the `except` clause swallows both `FileNotFoundError` and
`json.JSONDecodeError`, so nothing is raised and no partial failure is
reported), and both an absent and a malformed override file yield
exactly the built-in defaults — the same result as resolving with no
override given. -/
theorem load_config_fallback :
    load_config .malformed = load_config .absent ∧
    load_config .malformed = DEFAULT_CONFIG ∧
    load_config .absent = DEFAULT_CONFIG :=
  ⟨rfl, rfl, rfl⟩

/-! ### C1 — verdict aggregation -/

/-- C1: `run_gate_a` yields `overall = FAIL` exactly when some hard
result has `passed = false`; otherwise `WARN` exactly when some soft
result carries at least one warning; otherwise `PASS`; and `hard_pass`,
`hard_fail`, `soft_warn` are exactly the names of the hard-passing,
hard-failing, and warning-carrying soft results. -/
theorem run_gate_a_spec (hard soft : List CheckResult) :
    (run_gate_a hard soft).hard_pass
        = (hard.filter (fun r => r.passed)).map (fun r => r.name) ∧
    (run_gate_a hard soft).hard_fail
        = (hard.filter (fun r => !r.passed)).map (fun r => r.name) ∧
    (run_gate_a hard soft).soft_warn
        = (soft.filter (fun r => !r.warnings.isEmpty)).map (fun r => r.name) ∧
    ((run_gate_a hard soft).overall = chs "FAIL" ↔ ∃ r ∈ hard, r.passed = false) ∧
    ((run_gate_a hard soft).overall = chs "WARN" ↔
      (¬∃ r ∈ hard, r.passed = false) ∧ ∃ r ∈ soft, r.warnings ≠ []) ∧
    ((run_gate_a hard soft).overall = chs "PASS" ↔
      (¬∃ r ∈ hard, r.passed = false) ∧ ¬∃ r ∈ soft, r.warnings ≠ []) := by
  have ne1 : chs "WARN" ≠ chs "FAIL" := by decide
  have ne2 : chs "PASS" ≠ chs "FAIL" := by decide
  have ne3 : chs "FAIL" ≠ chs "WARN" := by decide
  have ne4 : chs "PASS" ≠ chs "WARN" := by decide
  have ne5 : chs "FAIL" ≠ chs "PASS" := by decide
  have ne6 : chs "WARN" ≠ chs "PASS" := by decide
  have hF : ((hard.filter (fun r => !r.passed)).map (fun r => r.name)).isEmpty = false
      ↔ ∃ r ∈ hard, r.passed = false := by
    rw [List.isEmpty_eq_false]
    simp [List.map_eq_nil_iff, List.filter_eq_nil_iff]
  have hW : ((soft.filter (fun r => !r.warnings.isEmpty)).map (fun r => r.name)).isEmpty = false
      ↔ ∃ r ∈ soft, r.warnings ≠ [] := by
    rw [List.isEmpty_eq_false]
    simp [List.map_eq_nil_iff, List.filter_eq_nil_iff, List.isEmpty_eq_false]
  have hoverall : (run_gate_a hard soft).overall =
      if !((hard.filter (fun r => !r.passed)).map (fun r => r.name)).isEmpty then chs "FAIL"
      else if !((soft.filter (fun r => !r.warnings.isEmpty)).map (fun r => r.name)).isEmpty
        then chs "WARN"
      else chs "PASS" := rfl
  refine ⟨rfl, rfl, rfl, ?_, ?_, ?_⟩ <;>
    · rw [hoverall]
      rcases hA : ((hard.filter (fun r => !r.passed)).map (fun r => r.name)).isEmpty <;>
        rcases hB : ((soft.filter (fun r => !r.warnings.isEmpty)).map (fun r => r.name)).isEmpty <;>
          rw [hA] at hF <;> rw [hB] at hW <;> simp_all

/-! ### C10 — defined identifiers are a subset of all identifiers -/

/-- C10: in `extract_defined_ids`, every identifier classified as
defined is also in the set of all identifiers seen (for both the
generic and the domain-prefixed form, which contribute to both sets in
the same per-line pass). -/
theorem extract_defined_ids_subset (text : ChStr) :
    ((extract_defined_ids text).1).all
      (fun id => (extract_defined_ids text).2.contains id) = true := by
  rw [List.all_eq_true]
  intro id hid
  rw [contains_iff_mem]
  simp only [extract_defined_ids] at hid ⊢
  rcases List.mem_map.1 hid with ⟨p, hp, rfl⟩
  exact List.mem_map.2 ⟨p, (List.mem_filter.1 hp).1, rfl⟩

/-! ### C8 — issue counting for dangling references -/

/-- C8 (amended): check 2 reports one dangling-reference issue per
finding only up to the report cap: the issues are exactly one per
identifier among the first ten dangling references in sorted order, so
a document with N distinct dangling references yields min(N, 10)
dangling-reference issues, not N for every N. -/
theorem check2_dangling_issue_count (text : ChStr) :
    check2DanglingIssues text = ((check2Dangling text).take 10).map danglingMsg ∧
    (check2DanglingIssues text).length = min (check2Dangling text).length 10 := by
  refine ⟨rfl, ?_⟩
  rw [check2DanglingIssues, List.length_map, List.length_take]
  exact Nat.min_comm _ _

def c8text : ChStr :=
  chs "see HR-001 HR-002 HR-003 HR-004 HR-005 HR-006 HR-007 HR-008 HR-009 HR-010 HR-011"

/-- C8 counterexample: a document with 11 distinct dangling references
yields only 10 dangling-reference issues from check 2 (the code caps
the report at `sorted(dangling)[:10]`), refuting "N issues for every
N". -/
theorem check2_dangling_cap_counterexample :
    (check2Dangling c8text).length = 11 ∧
    (check_2_id_integrity c8text).issues.length = 10 := by
  constructor <;> decide

/-! ### C3 — duplicate-definition detection -/

/-- The claim's notion of a definition occurrence, per line: the
identifier is recorded by the extractor on that line at a definition
position (start of the trimmed line, after a leading
bullet/heading/numbering marker, or at the start of a table cell).
`specDefOccCount` counts the lines of the document on which this
happens. -/
def specDefOccCount (text id : ChStr) : Nat :=
  ((splitNl text).map pyStrip).countP (fun s => (lineIdOccurrences s).contains (id, true))

/-- C3 counterexample: `- DEC-001 a` / `- DEC-001 b` gives `DEC-001`
two definition occurrences in the claim's sense (after a leading bullet
marker; the extractor itself classifies it as defined), yet check 2
raises no issue at all: its duplicate counting only counts line-start
occurrences for generic identifiers. -/
theorem check2_duplicate_bullet_counterexample :
    specDefOccCount (chs "- DEC-001 a\n- DEC-001 b") (chs "DEC-001") = 2 ∧
    (chs "DEC-001") ∈ (extract_defined_ids (chs "- DEC-001 a\n- DEC-001 b")).1 ∧
    (check_2_id_integrity (chs "- DEC-001 a\n- DEC-001 b")).issues = [] ∧
    (check_2_id_integrity (chs "- DEC-001 a\n- DEC-001 b")).passed = true := by
  refine ⟨?_, ?_, ?_, ?_⟩ <;> decide

/-- C3 (amended): check 2 counts definition occurrences of a generic
identifier only when the trimmed line starts with it, and of a
domain-prefixed identifier when the line starts with it or matches the
leading-marker pattern (table-cell definitions are never counted);
whenever an identifier's counted occurrences exceed 1, check 2 fails
with a duplicate-definition issue naming that identifier. -/
theorem check2_duplicate_counted (text id : ChStr)
    (h : 2 ≤ (check2CountedDefs text).count id) :
    dupMsg id ((check2CountedDefs text).count id) ∈ (check_2_id_integrity text).issues ∧
    (check_2_id_integrity text).passed = false := by
  have hmem : id ∈ check2CountedDefs text := List.count_pos_iff.1 (by omega)
  have hdd : id ∈ dedupKeepFirst (check2CountedDefs text) := (mem_dedupKeepFirst _ _).2 hmem
  have hiss : dupMsg id ((check2CountedDefs text).count id) ∈ check2DupIssues text := by
    show dupMsg _ _ ∈ (dedupKeepFirst (check2CountedDefs text)).filterMap _
    exact List.mem_filterMap.2 ⟨id, hdd, by rw [if_pos h]⟩
  have happ : dupMsg id ((check2CountedDefs text).count id)
      ∈ check2DupIssues text ++ check2DanglingIssues text := List.mem_append_left _ hiss
  refine ⟨happ, ?_⟩
  show (check2DupIssues text ++ check2DanglingIssues text).isEmpty = false
  rw [List.isEmpty_eq_false]
  exact fun hnil => absurd (hnil ▸ happ) (List.not_mem_nil _)

/-- Witness for `check2_duplicate_counted` at the document
`DEC-001 a\nDEC-001 b`. -/
theorem check2_duplicate_counted_witness :
    dupMsg (chs "DEC-001")
        ((check2CountedDefs (chs "DEC-001 a\nDEC-001 b")).count (chs "DEC-001"))
      ∈ (check_2_id_integrity (chs "DEC-001 a\nDEC-001 b")).issues ∧
    (check_2_id_integrity (chs "DEC-001 a\nDEC-001 b")).passed = false :=
  check2_duplicate_counted (chs "DEC-001 a\nDEC-001 b") (chs "DEC-001") (by decide)

/-! ### C5 — evidence dangling-reference check -/

def c5store : List EvItem := [[(chs "evidence_id", chs "EVD-001")]]

/-- C5 counterexample: with a non-empty store whose item carries the id
under the key `evidence_id` (the shape the claim states), check 7 still
raises a dangling-evidence issue for `EVD-001`, because the code reads
the `evd_id` key; so "an issue iff the id is not the `evidence_id` of
any item" is false. -/
theorem check7_evidence_key_counterexample :
    (∃ it ∈ c5store, (chs "evidence_id", chs "EVD-001") ∈ it) ∧
    check7DanglingEvidenceIssues (chs "EVD-001") c5store
      = [evdMissingMsg (chs "EVD-001")] := by
  constructor
  · exact ⟨_, List.mem_cons_self _ _, List.mem_cons_self _ _⟩
  · decide

/-- C5 (amended): when the store is non-empty, check 7 raises a
dangling-evidence issue for id `e` iff `e` is among the first five, in
sorted order, of the ids referenced in the text that are not the
`evd_id` (not `evidence_id`) of any item; in particular when every
referenced id is some item's `evd_id` — so that the missing set is
empty — no such issue is raised. -/
theorem check7_dangling_evd_spec (text : ChStr) (items : List EvItem)
    (hne : items ≠ []) (e : ChStr) :
    (evdMissingMsg e ∈ check7DanglingEvidenceIssues text items ↔
      e ∈ (sortStr (check7MissingEvd text items)).take 5) ∧
    (check7MissingEvd text items = [] → check7DanglingEvidenceIssues text items = []) := by
  have hni : items.isEmpty = false := by rw [List.isEmpty_eq_false]; exact hne
  constructor
  · simp only [check7DanglingEvidenceIssues, hni, Bool.false_eq_true, if_false]
    constructor
    · intro hm
      rcases List.mem_map.1 hm with ⟨e', he', heq⟩
      rw [evdMissingMsg, evdMissingMsg] at heq
      exact List.append_cancel_left heq ▸ he'
    · intro he
      exact List.mem_map.2 ⟨e, he, rfl⟩
  · intro h
    simp [check7DanglingEvidenceIssues, h, sortStr]

/-- Witness for `check7_dangling_evd_spec`: with the store keyed by
`evd_id` and every referenced id present, no dangling issue is
raised. -/
theorem check7_dangling_evd_spec_witness :
    evdMissingMsg (chs "EVD-001")
      ∉ check7DanglingEvidenceIssues (chs "EVD-001") [[(chs "evd_id", chs "EVD-001")]] := by
  intro hm
  have h := (check7_dangling_evd_spec (chs "EVD-001") [[(chs "evd_id", chs "EVD-001")]]
    (by decide) (chs "EVD-001")).1.1 hm
  revert h
  decide

/-! ### C9 — configuration isolation in the heap model -/

theorem cfgFieldIdx_lt (f : CfgField) : cfgFieldIdx f < 8 := by
  cases f <;> simp [cfgFieldIdx]

/-- C9: resolving the configuration allocates only fresh cells, so (a)
resolving never changes the cell of any collection the defaults own;
(b) after resolving twice, mutating a collection-valued field of the
first result through the heap changes neither any field of the second
result nor any collection of the shared defaults; and symmetrically
mutating the second result leaves the first result unchanged. -/
theorem load_config_isolation (h : PyHeap) (dflt : CfgObj)
    (ov1 ov2 : CfgField → Option PyVal) (hwf : ∀ f, dflt f < h.next)
    (v : PyVal) (fm fr fd : CfgField) :
    let r1 := load_config_heap h dflt ov1
    let r2 := load_config_heap r1.2 dflt ov2
    (heapWrite r2.2 (r1.1 fm) v).cells (r2.1 fr) = r2.2.cells (r2.1 fr) ∧
    (heapWrite r2.2 (r2.1 fm) v).cells (r1.1 fr) = r2.2.cells (r1.1 fr) ∧
    (heapWrite r2.2 (r1.1 fm) v).cells (dflt fd) = r2.2.cells (dflt fd) ∧
    (heapWrite r2.2 (r2.1 fm) v).cells (dflt fd) = r2.2.cells (dflt fd) ∧
    r1.2.cells (dflt fd) = h.cells (dflt fd) ∧
    r2.2.cells (dflt fd) = h.cells (dflt fd) := by
  intro r1 r2
  have hm := cfgFieldIdx_lt fm
  have hr := cfgFieldIdx_lt fr
  have hd := hwf fd
  have hr1 : ∀ f, r1.1 f = h.next + cfgFieldIdx f := fun _ => rfl
  have hr2 : ∀ f, r2.1 f = h.next + 8 + cfgFieldIdx f := fun _ => rfl
  have hn2 : r1.2.next = h.next + 8 := rfl
  have hcells1 : ∀ a, a < h.next → r1.2.cells a = h.cells a := by
    intro a ha
    show (if h.next ≤ a ∧ a < h.next + 8 then _ else h.cells a) = h.cells a
    rw [if_neg (by omega)]
  have hcells2 : ∀ a, a < h.next → r2.2.cells a = h.cells a := by
    intro a ha
    have : r2.2.cells a = r1.2.cells a := by
      show (if h.next + 8 ≤ a ∧ a < h.next + 8 + 8 then _ else r1.2.cells a) = r1.2.cells a
      rw [if_neg (by omega)]
    rw [this, hcells1 a ha]
  have hw : ∀ (hp : PyHeap) (a b : Nat) (w : PyVal), b ≠ a →
      (heapWrite hp a w).cells b = hp.cells b := by
    intro hp a b w hab
    simp [heapWrite, hab]
  refine ⟨hw _ _ _ _ ?_, hw _ _ _ _ ?_, hw _ _ _ _ ?_, hw _ _ _ _ ?_,
    hcells1 _ hd, hcells2 _ hd⟩
  · rw [hr2 fr, hr1 fm]; omega
  · rw [hr1 fr, hr2 fm]; omega
  · rw [hr1 fm]; omega
  · rw [hr2 fm]; omega

/-- Witness for `load_config_isolation` at the initial interpreter
store, with no overrides and a concrete mutation. -/
theorem load_config_isolation_witness :
    (∀ f, defaultObj f < initHeap.next) ∧
    (let r1 := load_config_heap initHeap defaultObj (fun _ => none)
     let r2 := load_config_heap r1.2 defaultObj (fun _ => none)
     (heapWrite r2.2 (r1.1 .min_scn_categories) (.strs [chs "x"])).cells
         (r2.1 .reject_categories)
       = r2.2.cells (r2.1 .reject_categories) ∧
     (heapWrite r2.2 (r2.1 .min_scn_categories) (.strs [chs "x"])).cells
         (r1.1 .reject_categories)
       = r2.2.cells (r1.1 .reject_categories) ∧
     (heapWrite r2.2 (r1.1 .min_scn_categories) (.strs [chs "x"])).cells
         (defaultObj .allowed_lang_tags)
       = r2.2.cells (defaultObj .allowed_lang_tags) ∧
     (heapWrite r2.2 (r2.1 .min_scn_categories) (.strs [chs "x"])).cells
         (defaultObj .allowed_lang_tags)
       = r2.2.cells (defaultObj .allowed_lang_tags) ∧
     r1.2.cells (defaultObj .allowed_lang_tags) = initHeap.cells (defaultObj .allowed_lang_tags) ∧
     r2.2.cells (defaultObj .allowed_lang_tags) = initHeap.cells (defaultObj .allowed_lang_tags)) :=
  ⟨fun f => by cases f <;> decide,
   load_config_isolation initHeap defaultObj (fun _ => none) (fun _ => none)
     (fun f => by cases f <;> decide) (.strs [chs "x"])
     .min_scn_categories .reject_categories .allowed_lang_tags⟩

/-! ### C6 — section slicer -/

/-- Index of the first list element satisfying `p`, if any. -/
def firstIdxWhere (p : ChStr → Bool) : List ChStr → Option Nat
  | [] => none
  | x :: xs => if p x then some 0 else (firstIdxWhere p xs).map (· + 1)

/-- A stripped line is a heading whose title matches the pattern. -/
def headingMatches (pat : ChStr → Bool) (stripped : ChStr) : Bool :=
  match headingShape stripped with
  | some kt => pat kt.2
  | none => false

/-- A stripped line is a heading of depth ≤ `lvl` (a section
terminator). -/
def isTerminatorLine (lvl : Nat) (stripped : ChStr) : Bool :=
  match headingShape stripped with
  | some kt => decide (kt.1 ≤ lvl)
  | none => false

/-- The slicer behaviour in the spec's words: the span begins at the
first heading whose title matches; it contains that heading and every
following line — nested deeper sub-headings included — up to
(exclusively) the first later heading of depth ≤ the opening depth, or
the end of the document. -/
def sliceSpec (text : ChStr) (pat : ChStr → Bool) : Option ChStr :=
  let L := (splitNl text).map pyStrip
  match firstIdxWhere (headingMatches pat) L with
  | none => none
  | some i =>
    match headingShape (L.getD i []) with
    | none => none
    | some kt =>
      some (joinNl (L.getD i [] ::
        (L.drop (i + 1)).take
          ((firstIdxWhere (isTerminatorLine kt.1) (L.drop (i + 1))).getD
            (L.drop (i + 1)).length)))

theorem firstIdxWhere_eq_none (p : ChStr → Bool) (L : List ChStr) :
    firstIdxWhere p L = none ↔ L.all (fun x => !p x) = true := by
  induction L with
  | nil => simp [firstIdxWhere]
  | cons x xs ih =>
    cases hp : p x <;> simp [firstIdxWhere, hp, ih]

theorem firstIdxWhere_getD (p : ChStr → Bool) :
    ∀ (L : List ChStr) (i : Nat), firstIdxWhere p L = some i →
      p (L.getD i []) = true := by
  intro L
  induction L with
  | nil => intro i h; simp [firstIdxWhere] at h
  | cons x xs ih =>
    intro i h
    cases hp : p x
    · rw [firstIdxWhere, if_neg (by simp [hp])] at h
      rcases Option.map_eq_some'.1 h with ⟨j, hj, rfl⟩
      rw [List.getD_cons_succ]
      exact ih j hj
    · rw [firstIdxWhere, if_pos hp] at h
      cases h
      simpa [List.getD_cons_zero] using hp

theorem extractSectionGo_eq (lvl : Nat) (L : List ChStr) :
    extractSectionGo lvl L
      = L.take ((firstIdxWhere (isTerminatorLine lvl) L).getD L.length) := by
  induction L with
  | nil => simp [extractSectionGo, firstIdxWhere]
  | cons x xs ih =>
    cases hx : headingShape x with
    | some kt =>
      by_cases hk : kt.1 ≤ lvl
      · simp [extractSectionGo, firstIdxWhere, isTerminatorLine, hx, hk]
      · cases hf : firstIdxWhere (isTerminatorLine lvl) xs <;>
          simp [extractSectionGo, firstIdxWhere, isTerminatorLine, hx, hk, ih, hf]
    | none =>
      cases hf : firstIdxWhere (isTerminatorLine lvl) xs <;>
        simp [extractSectionGo, firstIdxWhere, isTerminatorLine, hx, ih, hf]

theorem extractSectionFind_eq (pat : ChStr → Bool) (L : List ChStr) :
    extractSectionFind pat L =
      match firstIdxWhere (headingMatches pat) L with
      | none => none
      | some i =>
        match headingShape (L.getD i []) with
        | none => none
        | some kt =>
          some (L.getD i [] ::
            (L.drop (i + 1)).take
              ((firstIdxWhere (isTerminatorLine kt.1) (L.drop (i + 1))).getD
                (L.drop (i + 1)).length)) := by
  induction L with
  | nil => simp [extractSectionFind, firstIdxWhere]
  | cons x xs ih =>
    cases hx : headingShape x with
    | some kt =>
      by_cases hp : pat kt.2
      · have hm : headingMatches pat x = true := by simp [headingMatches, hx, hp]
        simp [extractSectionFind, firstIdxWhere, hx, hp, hm, extractSectionGo_eq]
      · have hm : headingMatches pat x = false := by simp [headingMatches, hx, hp]
        cases hf : firstIdxWhere (headingMatches pat) xs <;>
          simp [extractSectionFind, firstIdxWhere, hx, hp, hm, ih, hf]
    | none =>
      have hm : headingMatches pat x = false := by simp [headingMatches, hx]
      cases hf : firstIdxWhere (headingMatches pat) xs <;>
        simp [extractSectionFind, firstIdxWhere, hx, hm, ih, hf]

/-- C6: the slicer returns `None` exactly when no heading's title
matches the pattern, and otherwise returns the span described by
`sliceSpec`: from the first matching heading, including all subsequent
lines and nested deeper sub-headings, up to (exclusively) the first
later heading of depth ≤ the opening depth or the end of the document. -/
theorem extract_section_spec (text : ChStr) (pat : ChStr → Bool) :
    extract_section text pat = sliceSpec text pat ∧
    (extract_section text pat = none ↔
      ((splitNl text).map pyStrip).all (fun s => !headingMatches pat s) = true) := by
  have hmain : extract_section text pat = sliceSpec text pat := by
    rw [extract_section, sliceSpec, extractSectionFind_eq]
    cases hf : firstIdxWhere (headingMatches pat) ((splitNl text).map pyStrip) with
    | none => rfl
    | some i =>
      dsimp only
      cases hh : headingShape (((splitNl text).map pyStrip).getD i []) with
      | none => rfl
      | some kt => rfl
  refine ⟨hmain, ?_⟩
  rw [hmain, sliceSpec, ← firstIdxWhere_eq_none]
  cases hf : firstIdxWhere (headingMatches pat) ((splitNl text).map pyStrip) with
  | none => simp
  | some i =>
    have hm := firstIdxWhere_getD _ _ _ hf
    dsimp only
    cases hh : headingShape (((splitNl text).map pyStrip).getD i []) with
    | none => rw [headingMatches, hh] at hm; exact absurd hm (by simp)
    | some kt => simp

/-! ### C7 — paragraph-length readability check -/

/-- A line the paragraph scan counts: not a fence delimiter, non-empty,
and not a heading / list item / table row / quote line (the code's
line-start tests for `#`, `-`, `|`, `>`). -/
def countedTextLine (s : ChStr) : Bool := !isFenceLine s && isPlainTextLine s

/-- Whether a prefix of the document leaves the scan inside a fenced
block: an odd number of fence-delimiter lines seen so far. -/
def fenceParity (L : List ChStr) : Bool := decide (L.countP isFenceLine % 2 = 1)

theorem fenceParity_cons (x : ChStr) (L : List ChStr) :
    fenceParity (x :: L) =
      if isFenceLine x then !(fenceParity L) else fenceParity L := by
  rcases Nat.mod_two_eq_zero_or_one (L.countP isFenceLine) with h | h <;>
    by_cases hx : isFenceLine x <;>
      simp [fenceParity, List.countP_cons, hx, Nat.add_mod, h]

theorem all_take_mono {p : ChStr → Bool} {L : List ChStr} (m k : Nat) (hk : k ≤ m)
    (h : (L.take m).all p = true) : (L.take k).all p = true := by
  rw [List.all_eq_true] at h ⊢
  intro x hx
  refine h x ?_
  have heq : L.take k = (L.take m).take k := by
    rw [List.take_take, Nat.min_eq_left hk]
  rw [heq] at hx
  exact List.take_subset _ _ hx

/-- The paragraph scan fires an issue exactly when a long-enough run of
counted text lines exists, relative to the starting state: either a run
of 11 at some position with the block-parity off, or — when the scan
starts outside a block with counter `c` — a run of `11 - c` at the very
start. -/
theorem check5ParAux_ne_nil (L : List ChStr) : ∀ (n : Nat) (b : Bool) (c : Nat), c ≤ 10 →
    (check5ParAux L n b c ≠ [] ↔
      (∃ i, 11 ≤ (L.drop i).length ∧ ((L.drop i).take 11).all countedTextLine = true ∧
        xor b (fenceParity (L.take i)) = false)
      ∨ (b = false ∧ 11 - c ≤ L.length ∧ (L.take (11 - c)).all countedTextLine = true)) := by
  induction L with
  | nil =>
    intro n b c hc
    constructor
    · intro h; exact absurd rfl h
    · rintro (⟨i, h1, _⟩ | ⟨_, h2, _⟩)
      · simp at h1
      · simp at h2; omega
  | cons l L' ih =>
    intro n b c hc
    rw [check5ParAux]
    by_cases hfl : isFenceLine l
    · rw [if_pos hfl, ih (n + 1) (!b) 0 (by omega)]
      constructor
      · rintro (⟨i, h1, h2, h3⟩ | ⟨hb, h2, h3⟩)
        · left
          refine ⟨i + 1, by simpa using h1, by simpa using h2, ?_⟩
          rw [List.take_succ_cons, fenceParity_cons, if_pos hfl]
          revert h3
          cases fenceParity (L'.take i) <;> cases b <;> simp
        · left
          have hb' : b = true := by revert hb; cases b <;> simp
          refine ⟨1, by simp; omega, by simpa using h3, ?_⟩
          rw [show (1:Nat) = 0 + 1 from rfl, List.take_succ_cons, List.take_zero,
            fenceParity_cons, if_pos hfl, hb']
          simp [fenceParity]
      · rintro (⟨i, h1, h2, h3⟩ | ⟨hb, h2, h3⟩)
        · cases i with
          | zero =>
            exfalso
            rw [List.drop_zero] at h1 h2
            rw [show (11:Nat) = 10 + 1 from rfl, List.take_succ_cons] at h2
            simp [List.all_cons, countedTextLine, hfl] at h2
          | succ i =>
            left
            refine ⟨i, by simpa using h1, by simpa using h2, ?_⟩
            rw [List.take_succ_cons, fenceParity_cons, if_pos hfl] at h3
            revert h3
            cases fenceParity (L'.take i) <;> cases b <;> simp
        · exfalso
          rw [show 11 - c = (10 - c) + 1 from by omega, List.take_succ_cons] at h3
          simp [List.all_cons, countedTextLine, hfl] at h3
    · rw [if_neg hfl]
      cases b with
      | true =>
        rw [if_pos rfl, ih (n + 1) true c hc]
        constructor
        · rintro (⟨i, h1, h2, h3⟩ | ⟨hb, _, _⟩)
          · left
            refine ⟨i + 1, by simpa using h1, by simpa using h2, ?_⟩
            rw [List.take_succ_cons, fenceParity_cons, if_neg hfl]
            exact h3
          · exact absurd hb (by simp)
        · rintro (⟨i, h1, h2, h3⟩ | ⟨hb, _, _⟩)
          · cases i with
            | zero =>
              exfalso
              rw [List.take_zero] at h3
              simp [fenceParity] at h3
            | succ i =>
              left
              refine ⟨i, by simpa using h1, by simpa using h2, ?_⟩
              rw [List.take_succ_cons, fenceParity_cons, if_neg hfl] at h3
              exact h3
          · exact absurd hb (by simp)
      | false =>
        rw [if_neg (by simp)]
        by_cases hpl : isPlainTextLine l
        · rw [if_pos hpl]
          have hcl : countedTextLine l = true := by simp [countedTextLine, hfl, hpl]
          by_cases hc10 : 10 < c + 1
          · rw [if_pos hc10]
            constructor
            · intro _
              right
              refine ⟨rfl, by simp; omega, ?_⟩
              rw [show 11 - c = 1 from by omega, show (1:Nat) = 0 + 1 from rfl,
                List.take_succ_cons, List.take_zero]
              simp [hcl]
            · intro _
              exact List.cons_ne_nil _ _
          · rw [if_neg hc10, ih (n + 1) false (c + 1) (by omega)]
            constructor
            · rintro (⟨i, h1, h2, h3⟩ | ⟨_, h2, h3⟩)
              · left
                refine ⟨i + 1, by simpa using h1, by simpa using h2, ?_⟩
                rw [List.take_succ_cons, fenceParity_cons, if_neg hfl]
                exact h3
              · right
                refine ⟨rfl, by simp at h2 ⊢; omega, ?_⟩
                rw [show 11 - c = (10 - c) + 1 from by omega, List.take_succ_cons]
                rw [show 11 - (c + 1) = 10 - c from by omega] at h3
                simp [List.all_cons, hcl]
                exact List.all_eq_true.1 h3
            · rintro (⟨i, h1, h2, h3⟩ | ⟨_, h2, h3⟩)
              · cases i with
                | zero =>
                  right
                  rw [List.drop_zero] at h1 h2
                  have h2' : (L'.take 10).all countedTextLine = true := by
                    rw [show (11:Nat) = 10 + 1 from rfl, List.take_succ_cons] at h2
                    simp [List.all_cons] at h2
                    exact List.all_eq_true.2 h2.2
                  refine ⟨rfl, by simp at h1 ⊢; omega, ?_⟩
                  exact all_take_mono 10 (11 - (c + 1)) (by omega) h2'
                | succ i =>
                  left
                  refine ⟨i, by simpa using h1, by simpa using h2, ?_⟩
                  rw [List.take_succ_cons, fenceParity_cons, if_neg hfl] at h3
                  exact h3
              · right
                rw [show 11 - c = (10 - c) + 1 from by omega, List.take_succ_cons] at h3
                simp [List.all_cons] at h3
                refine ⟨rfl, by simp at h2 ⊢; omega, ?_⟩
                rw [show 11 - (c + 1) = 10 - c from by omega]
                exact List.all_eq_true.2 h3.2
        · rw [if_neg hpl, ih (n + 1) false 0 (by omega)]
          have hcl : countedTextLine l = false := by simp [countedTextLine, hpl]
          constructor
          · rintro (⟨i, h1, h2, h3⟩ | ⟨_, h2, h3⟩)
            · left
              refine ⟨i + 1, by simpa using h1, by simpa using h2, ?_⟩
              rw [List.take_succ_cons, fenceParity_cons, if_neg hfl]
              exact h3
            · left
              refine ⟨1, by simp at h2 ⊢; omega, by simpa using h3, ?_⟩
              rw [show (1:Nat) = 0 + 1 from rfl, List.take_succ_cons, List.take_zero,
                fenceParity_cons, if_neg hfl]
              simp [fenceParity]
          · rintro (⟨i, h1, h2, h3⟩ | ⟨_, h2, h3⟩)
            · cases i with
              | zero =>
                exfalso
                rw [List.drop_zero] at h1 h2
                rw [show (11:Nat) = 10 + 1 from rfl, List.take_succ_cons] at h2
                simp [List.all_cons, hcl] at h2
              | succ i =>
                left
                refine ⟨i, by simpa using h1, by simpa using h2, ?_⟩
                rw [List.take_succ_cons, fenceParity_cons, if_neg hfl] at h3
                exact h3
            · exfalso
              rw [show 11 - c = (10 - c) + 1 from by omega, List.take_succ_cons] at h3
              simp [List.all_cons, hcl] at h3

/-- C7: check 5 reports a paragraph-too-long failure iff, outside
fenced blocks (even number of fence delimiters before the run), the
document has a run of at least 11 consecutive counted text lines —
non-empty stripped lines that are not fence delimiters and do not start
with `#` (heading), `-` (list item), `|` (table row) or `>` (quote);
and those paragraph issues are exactly the second part of check 5's
issue list, after the WHEN/THEN issues. -/
theorem check5_paragraph_iff (text : ChStr) :
    (check5ParagraphIssues text ≠ [] ↔
      ∃ i, 11 ≤ (((splitNl text).map pyStrip).drop i).length ∧
        ((((splitNl text).map pyStrip).drop i).take 11).all countedTextLine = true ∧
        fenceParity (((splitNl text).map pyStrip).take i) = false) ∧
    (check_5_readability text).issues
      = check5WhenThenIssues text ++ check5ParagraphIssues text := by
  constructor
  · rw [check5ParagraphIssues, check5ParAux_ne_nil _ 1 false 0 (by omega)]
    constructor
    · rintro (⟨i, h1, h2, h3⟩ | ⟨_, h2, h3⟩)
      · exact ⟨i, h1, h2, by simpa using h3⟩
      · exact ⟨0, by simpa using h2, by simpa using h3, by simp [fenceParity]⟩
    · rintro ⟨i, h1, h2, h3⟩
      exact Or.inl ⟨i, h1, h2, by simpa using h3⟩
  · rfl

/-! ### C2 — no double counting of overlapping identifier matches -/

theorem digit_not_upper (c : Char) (h1 : c.isDigit = true) (h2 : c.isUpper = true) : False := by
  simp only [Char.isDigit, Char.isUpper, Bool.and_eq_true, decide_eq_true_eq, ge_iff_le] at h1 h2
  have ha : c.val.toNat ≤ 57 := by
    have h := h1.2; rw [UInt32.le_def] at h; exact h
  have hb : 65 ≤ c.val.toNat := by
    have h := h2.1; rw [UInt32.le_def] at h; exact h
  omega

theorem word_of_upper (c : Char) (h : c.isUpper = true) : isWordChar c = true := by
  simp [isWordChar, Char.isAlphanum, Char.isAlpha, h]

theorem word_of_digit (c : Char) (h : c.isDigit = true) : isWordChar c = true := by
  simp [isWordChar, Char.isAlphanum, h]

theorem prefix_getElem? :
    ∀ (p s : ChStr), p.isPrefixOf s = true → ∀ i, i < p.length → s[i]? = p[i]? := by
  intro p
  induction p with
  | nil => intro s _ i hi; simp at hi
  | cons a p ih =>
    intro s hp i hi
    cases s with
    | nil => simp [List.isPrefixOf] at hp
    | cons b s =>
      simp only [List.isPrefixOf, Bool.and_eq_true, beq_iff_eq] at hp
      obtain ⟨rfl, hp⟩ := hp
      cases i with
      | zero => simp
      | succ i => simpa using ih s hp i (by simpa using hi)

theorem digitRun_get :
    ∀ (s : ChStr) (i : Nat), i < digitRun s → ∃ c, s[i]? = some c ∧ c.isDigit = true := by
  intro s
  induction s with
  | nil => intro i hi; simp [digitRun] at hi
  | cons a s ih =>
    intro i hi
    rw [digitRun] at hi
    by_cases ha : a.isDigit
    · cases i with
      | zero => exact ⟨a, by simp, ha⟩
      | succ i =>
        rw [if_pos ha] at hi
        rcases ih i (by omega) with ⟨c, hc1, hc2⟩
        exact ⟨c, by simpa using hc1, hc2⟩
    · rw [if_neg ha] at hi; omega

theorem upperRun_get :
    ∀ (s : ChStr) (i : Nat), i < upperRun s → ∃ c, s[i]? = some c ∧ c.isUpper = true := by
  intro s
  induction s with
  | nil => intro i hi; simp [upperRun] at hi
  | cons a s ih =>
    intro i hi
    rw [upperRun] at hi
    by_cases ha : a.isUpper
    · cases i with
      | zero => exact ⟨a, by simp, ha⟩
      | succ i =>
        rw [if_pos ha] at hi
        rcases ih i (by omega) with ⟨c, hc1, hc2⟩
        exact ⟨c, by simpa using hc1, hc2⟩
    · rw [if_neg ha] at hi; omega

theorem upperRun_le_length (s : ChStr) : upperRun s ≤ s.length := by
  induction s with
  | nil => simp [upperRun]
  | cons a s ih =>
    rw [upperRun]
    by_cases ha : a.isUpper
    · rw [if_pos ha]; simpa using ih
    · rw [if_neg ha]; simp

/-- Digits found at an offset below a digit run taken at a suffix of the
text, expressed at absolute positions. -/
theorem digitRun_at (text : ChStr) (q i : Nat) (h : i < digitRun (text.drop q)) :
    ∃ c, text[q + i]? = some c ∧ c.isDigit = true := by
  rcases digitRun_get (text.drop q) i h with ⟨c, hc1, hc2⟩
  rw [List.getElem?_drop] at hc1
  exact ⟨c, hc1, hc2⟩

theorem idKinds_upper (k : ChStr) (hk : k ∈ idKinds) (c : Char) (hc : c ∈ k) :
    c.isUpper = true := by
  have h6 : idKinds = [['H', 'R'], ['D', 'E', 'C'], ['R', 'E', 'Q'],
      ['S', 'C', 'N'], ['C', 'H', 'G'], ['E', 'V', 'D']] := rfl
  rw [h6] at hk
  simp only [List.mem_cons, List.not_mem_nil, or_false] at hk
  rcases hk with rfl | rfl | rfl | rfl | rfl | rfl <;>
    exact List.all_eq_true.1 (by decide) c hc

theorem idKinds_len (k : ChStr) (hk : k ∈ idKinds) : 2 ≤ k.length := by
  have h6 : idKinds = [['H', 'R'], ['D', 'E', 'C'], ['R', 'E', 'Q'],
      ['S', 'C', 'N'], ['C', 'H', 'G'], ['E', 'V', 'D']] := rfl
  rw [h6] at hk
  simp only [List.mem_cons, List.not_mem_nil, or_false] at hk
  rcases hk with rfl | rfl | rfl | rfl | rfl | rfl <;> decide

theorem idKinds_firstH (k : ChStr) (hk : k ∈ idKinds) (h : k[0]? = some 'H') :
    k = chs "HR" := by
  have h6 : idKinds = [['H', 'R'], ['D', 'E', 'C'], ['R', 'E', 'Q'],
      ['S', 'C', 'N'], ['C', 'H', 'G'], ['E', 'V', 'D']] := rfl
  rw [h6] at hk
  simp only [List.mem_cons, List.not_mem_nil, or_false] at hk
  rcases hk with rfl | rfl | rfl | rfl | rfl | rfl <;> revert h <;> decide

/-- The positional content of an `ID_PATTERN` match at `m.start`:
the kind letters, the dash, the start of the digit run, the span
equation, and the word boundary before the match. -/
structure IdFacts (text : ChStr) (m : RMatch) : Prop where
  kindMem : m.grp1 ∈ idKinds
  kpre : ∀ i, i < m.grp1.length → text[m.start + i]? = m.grp1[i]?
  dash : text[m.start + m.grp1.length]? = some '-'
  stopEq : m.stop = m.start + m.grp1.length + 1
      + digitRun (text.drop (m.start + m.grp1.length + 1))
  threeLe : 3 ≤ digitRun (text.drop (m.start + m.grp1.length + 1))
  before : m.start = 0 ∨ ∃ c, text[m.start - 1]? = some c ∧ isWordChar c = false

/-- The positional content of a `DOMAIN_HR_PATTERN` match at `m.start`. -/
structure DomFacts (text : ChStr) (m : RMatch) : Prop where
  ulen : 1 ≤ m.grp1.length
  upper : ∀ i, i < m.grp1.length → ∃ c, text[m.start + i]? = some c ∧ c.isUpper = true
  dash1 : text[m.start + m.grp1.length]? = some '-'
  hChar : text[m.start + m.grp1.length + 1]? = some 'H'
  rChar : text[m.start + m.grp1.length + 2]? = some 'R'
  dash2 : text[m.start + m.grp1.length + 3]? = some '-'
  stopEq : m.stop = m.start + m.grp1.length + 4
      + digitRun (text.drop (m.start + m.grp1.length + 4))
  threeLe : 3 ≤ digitRun (text.drop (m.start + m.grp1.length + 4))
  before : m.start = 0 ∨ ∃ c, text[m.start - 1]? = some c ∧ isWordChar c = false

theorem idMatchLen_len_pos (s : ChStr) (a b : ChStr) (len : Nat)
    (h : idMatchLen s = some (a, b, len)) : 1 ≤ len := by
  simp only [idMatchLen] at h
  split at h
  · exact absurd h (by simp)
  · split at h
    · exact absurd h (by simp)
    · split at h
      · split at h
        · simp only [Option.some.injEq, Prod.mk.injEq] at h
          omega
        · exact absurd h (by simp)
      · exact absurd h (by simp)

theorem domainMatchLen_len_pos (s : ChStr) (a b : ChStr) (len : Nat)
    (h : domainMatchLen s = some (a, b, len)) : 1 ≤ len := by
  simp only [domainMatchLen] at h
  split at h
  · exact absurd h (by simp)
  · split at h
    · split at h
      · simp only [Option.some.injEq, Prod.mk.injEq] at h
        omega
      · exact absurd h (by simp)
    · exact absurd h (by simp)

/-- Soundness of the boundary-gated scanner: every emitted match is a
successful match attempt of `f` at its start position, and a word
boundary precedes it. -/
theorem scanBAux_sound (f : ChStr → Option (ChStr × ChStr × Nat))
    (hf : ∀ s a b len, f s = some (a, b, len) → 1 ≤ len) (text : ChStr) :
    ∀ (fuel : Nat) (s : ChStr) (pos : Nat) (prev : Bool),
      s = text.drop pos →
      (prev = false → pos = 0 ∨ ∃ c, text[pos - 1]? = some c ∧ isWordChar c = false) →
      ∀ m ∈ scanBAux f fuel s pos prev,
        (∃ len, f (text.drop m.start) = some (m.grp1, m.grp2, len) ∧ m.stop = m.start + len) ∧
        (m.start = 0 ∨ ∃ c, text[m.start - 1]? = some c ∧ isWordChar c = false) := by
  intro fuel
  induction fuel with
  | zero => intro s pos prev _ _ m hm; simp [scanBAux] at hm
  | succ fuel ih =>
    intro s pos prev hs hprev m hm
    cases s with
    | nil => simp [scanBAux] at hm
    | cons ch rest =>
      have hch : text[pos]? = some ch := by
        have h0 : (text.drop pos)[0]? = some ch := by rw [← hs]; simp
        rw [List.getElem?_drop, Nat.add_zero] at h0
        exact h0
      have hrest : rest = text.drop (pos + 1) := by
        rw [← List.tail_drop, ← hs]
        rfl
      rw [scanBAux] at hm
      by_cases hp : prev = true
      · rw [if_pos hp] at hm
        refine ih rest (pos + 1) (isWordChar ch) hrest ?_ m hm
        intro hw
        right
        exact ⟨ch, by rw [show pos + 1 - 1 = pos from by omega]; exact hch, hw⟩
      · have hp' : prev = false := by revert hp; cases prev <;> simp
        rw [if_neg hp] at hm
        cases hfm : f (ch :: rest) with
        | none =>
          rw [hfm] at hm
          refine ih rest (pos + 1) (isWordChar ch) hrest ?_ m hm
          intro hw
          right
          exact ⟨ch, by rw [show pos + 1 - 1 = pos from by omega]; exact hch, hw⟩
        | some r =>
          obtain ⟨a, b, len⟩ := r
          rw [hfm] at hm
          rcases List.mem_cons.1 hm with rfl | hm'
          · refine ⟨⟨len, ?_, rfl⟩, hprev hp'⟩
            rw [← hs]
            exact hfm
          · have hlen : 1 ≤ len := hf _ _ _ _ hfm
            refine ih (rest.drop (len - 1)) (pos + len) true ?_
              (fun hfalse => absurd hfalse (by simp)) m hm'
            rw [hrest, List.drop_drop]
            congr 1
            omega

theorem idMatchLen_facts (text : ChStr) (gs : Nat) (k dg : ChStr) (len : Nat)
    (h : idMatchLen (text.drop gs) = some (k, dg, len))
    (hb : gs = 0 ∨ ∃ c, text[gs - 1]? = some c ∧ isWordChar c = false) :
    IdFacts text ⟨gs, gs + len, k, dg⟩ := by
  simp only [idMatchLen] at h
  split at h
  · exact absurd h (by simp)
  · rename_i k' hk
    split at h
    · exact absurd h (by simp)
    · rename_i c r hd
      split at h
      · rename_i hc
        subst hc
        split at h
        · rename_i hcond
          simp only [Option.some.injEq, Prod.mk.injEq] at h
          obtain ⟨rfl, rfl, rfl⟩ := h
          have hk' : idKinds.find? (fun kk => kk.isPrefixOf (text.drop gs)) = some k' := hk
          have hkpre : k'.isPrefixOf (text.drop gs) = true := by
            have hp := List.find?_some hk'
            simpa using hp
          have hkin : k' ∈ idKinds := List.mem_of_find?_eq_some hk'
          have hr : r = text.drop (gs + k'.length + 1) := by
            have h1 : ((text.drop gs).drop k'.length).tail = r := by rw [hd]; rfl
            rw [List.drop_drop, List.tail_drop] at h1
            exact h1.symm
          have hdash : text[gs + k'.length]? = some '-' := by
            have h1 : ((text.drop gs).drop k'.length)[0]? = some '-' := by rw [hd]; simp
            rw [List.drop_drop, List.getElem?_drop, Nat.add_zero] at h1
            exact h1
          refine ⟨hkin, ?_, hdash, ?_, ?_, hb⟩
          · intro i hi
            have hp := prefix_getElem? k' (text.drop gs) hkpre i hi
            rw [List.getElem?_drop] at hp
            exact hp
          · show gs + (k'.length + 1 + digitRun r)
                = gs + k'.length + 1 + digitRun (text.drop (gs + k'.length + 1))
            rw [← hr]
            omega
          · show 3 ≤ digitRun (text.drop (gs + k'.length + 1))
            rw [← hr]
            simp only [Bool.and_eq_true, decide_eq_true_eq] at hcond
            exact hcond.1
        · exact absurd h (by simp)
      · exact absurd h (by simp)

theorem domainMatchLen_facts (text : ChStr) (ds : Nat) (U dg : ChStr) (len : Nat)
    (h : domainMatchLen (text.drop ds) = some (U, dg, len))
    (hb : ds = 0 ∨ ∃ c, text[ds - 1]? = some c ∧ isWordChar c = false) :
    DomFacts text ⟨ds, ds + len, U, dg⟩ := by
  simp only [domainMatchLen] at h
  split at h
  · exact absurd h (by simp)
  · rename_i hu
    split at h
    · rename_i hpre
      split at h
      · rename_i hcond
        simp only [Option.some.injEq, Prod.mk.injEq] at h
        obtain ⟨rfl, rfl, rfl⟩ := h
        have hulen : ((text.drop ds).take (upperRun (text.drop ds))).length
            = upperRun (text.drop ds) := by
          rw [List.length_take]
          exact Nat.min_eq_left (upperRun_le_length _)
        have hrpos : ∀ j, j < 4 →
            text[ds + upperRun (text.drop ds) + j]? = (chs "-HR-")[j]? := by
          intro j hj
          have hp := prefix_getElem? (chs "-HR-") _ hpre j
            (by rw [show (chs "-HR-").length = 4 from rfl]; exact hj)
          rw [List.drop_drop, List.getElem?_drop] at hp
          exact hp
        have hq : (((text.drop ds).drop (upperRun (text.drop ds))).drop 4)
            = text.drop (ds + upperRun (text.drop ds) + 4) := by
          rw [List.drop_drop, List.drop_drop, Nat.add_assoc]
        refine ⟨?_, ?_, ?_, ?_, ?_, ?_, ?_, ?_, hb⟩
        · show 1 ≤ ((text.drop ds).take (upperRun (text.drop ds))).length
          rw [hulen]
          omega
        · intro i hi
          rw [hulen] at hi
          rcases upperRun_get (text.drop ds) i hi with ⟨c, hc1, hc2⟩
          rw [List.getElem?_drop] at hc1
          exact ⟨c, hc1, hc2⟩
        · show text[ds + ((text.drop ds).take (upperRun (text.drop ds))).length]? = some '-'
          rw [hulen]
          have := hrpos 0 (by omega)
          rw [Nat.add_zero] at this
          rw [this]
          rfl
        · show text[ds + ((text.drop ds).take (upperRun (text.drop ds))).length + 1]? = some 'H'
          rw [hulen]
          rw [hrpos 1 (by omega)]
          rfl
        · show text[ds + ((text.drop ds).take (upperRun (text.drop ds))).length + 2]? = some 'R'
          rw [hulen]
          rw [hrpos 2 (by omega)]
          rfl
        · show text[ds + ((text.drop ds).take (upperRun (text.drop ds))).length + 3]? = some '-'
          rw [hulen]
          rw [hrpos 3 (by omega)]
          rfl
        · show ds + (upperRun (text.drop ds) + 4
                + digitRun (((text.drop ds).drop (upperRun (text.drop ds))).drop 4))
            = ds + ((text.drop ds).take (upperRun (text.drop ds))).length + 4
                + digitRun (text.drop
                  (ds + ((text.drop ds).take (upperRun (text.drop ds))).length + 4))
          rw [hulen, hq]
          omega
        · show 3 ≤ digitRun (text.drop
              (ds + ((text.drop ds).take (upperRun (text.drop ds))).length + 4))
          rw [hulen, ← hq]
          simp only [Bool.and_eq_true, decide_eq_true_eq] at hcond
          exact hcond.1
      · exact absurd h (by simp)
    · exact absurd h (by simp)

theorem idFinditer_facts (text : ChStr) (m : RMatch) (hm : m ∈ idFinditer text) :
    IdFacts text m := by
  rw [idFinditer, scanB] at hm
  obtain ⟨ms, mp, g1, g2⟩ := m
  rcases scanBAux_sound idMatchLen idMatchLen_len_pos text text.length text 0 false
      (List.drop_zero text).symm (fun _ => Or.inl rfl) _ hm with ⟨⟨len, heq, hstop⟩, hbef⟩
  simp only at heq hstop hbef
  subst hstop
  exact idMatchLen_facts text ms g1 g2 len heq hbef

theorem domainFinditer_facts (text : ChStr) (m : RMatch) (hm : m ∈ domainFinditer text) :
    DomFacts text m := by
  rw [domainFinditer, scanB] at hm
  obtain ⟨ms, mp, g1, g2⟩ := m
  rcases scanBAux_sound domainMatchLen domainMatchLen_len_pos text text.length text 0 false
      (List.drop_zero text).symm (fun _ => Or.inl rfl) _ hm with ⟨⟨len, heq, hstop⟩, hbef⟩
  simp only at heq hstop hbef
  subst hstop
  exact domainMatchLen_facts text ms g1 g2 len heq hbef

/-- Every position strictly inside an `ID_PATTERN` match other than its
dash holds a word character. -/
theorem idFacts_word (text : ChStr) (g : RMatch) (F : IdFacts text g) (p : Nat)
    (h1 : g.start ≤ p) (h2 : p < g.stop) (h3 : p ≠ g.start + g.grp1.length) :
    ∃ c, text[p]? = some c ∧ isWordChar c = true := by
  by_cases hlt : p < g.start + g.grp1.length
  · have hi : p - g.start < g.grp1.length := by omega
    have hk := F.kpre (p - g.start) hi
    rw [show g.start + (p - g.start) = p from by omega] at hk
    rw [List.getElem?_eq_getElem hi] at hk
    refine ⟨g.grp1[p - g.start], hk, ?_⟩
    exact word_of_upper _ (idKinds_upper _ F.kindMem _ (List.getElem_mem _))
  · have hi : p - (g.start + g.grp1.length + 1)
        < digitRun (text.drop (g.start + g.grp1.length + 1)) := by
      have hst := F.stopEq
      omega
    rcases digitRun_at text _ _ hi with ⟨c, hc1, hc2⟩
    rw [show g.start + g.grp1.length + 1 + (p - (g.start + g.grp1.length + 1)) = p
      from by omega] at hc1
    exact ⟨c, hc1, word_of_digit c hc2⟩

/-- Every position strictly inside a `DOMAIN_HR_PATTERN` match other
than its two dashes holds a word character. -/
theorem domFacts_word (text : ChStr) (d : RMatch) (D : DomFacts text d) (p : Nat)
    (h1 : d.start ≤ p) (h2 : p < d.stop)
    (h3 : p ≠ d.start + d.grp1.length) (h4 : p ≠ d.start + d.grp1.length + 3) :
    ∃ c, text[p]? = some c ∧ isWordChar c = true := by
  by_cases hlt : p < d.start + d.grp1.length
  · rcases D.upper (p - d.start) (by omega) with ⟨c, hc1, hc2⟩
    rw [show d.start + (p - d.start) = p from by omega] at hc1
    exact ⟨c, hc1, word_of_upper c hc2⟩
  · by_cases hH : p = d.start + d.grp1.length + 1
    · exact ⟨'H', by rw [hH]; exact D.hChar, by decide⟩
    · by_cases hR : p = d.start + d.grp1.length + 2
      · exact ⟨'R', by rw [hR]; exact D.rChar, by decide⟩
      · have hi : p - (d.start + d.grp1.length + 4)
            < digitRun (text.drop (d.start + d.grp1.length + 4)) := by
          have hst := D.stopEq
          omega
        rcases digitRun_at text _ _ hi with ⟨c, hc1, hc2⟩
        rw [show d.start + d.grp1.length + 4 + (p - (d.start + d.grp1.length + 4)) = p
          from by omega] at hc1
        exact ⟨c, hc1, word_of_digit c hc2⟩

/-- The geometric core of the no-double-counting invariant: an
`ID_PATTERN` match that overlaps a `DOMAIN_HR_PATTERN` match lies
entirely within its span (it is the trailing `HR-NNN` of the
domain-prefixed identifier). -/
theorem id_overlap_inside_domain (text : ChStr) (g d : RMatch)
    (G : IdFacts text g) (D : DomFacts text d)
    (h1 : g.start < d.stop) (h2 : d.start < g.stop) :
    d.start ≤ g.start ∧ g.stop ≤ d.stop := by
  have hklen : 2 ≤ g.grp1.length := idKinds_len _ G.kindMem
  have hgspan : g.start + g.grp1.length + 1 + 3 ≤ g.stop := by
    have hst := G.stopEq
    have h3 := G.threeLe
    omega
  have hdspan : d.start + d.grp1.length + 4 + 3 ≤ d.stop := by
    have hst := D.stopEq
    have h3 := D.threeLe
    omega
  -- Step B: the two matches cannot start at the same position.
  have hB : g.start ≠ d.start := by
    intro heq
    rcases Nat.lt_trichotomy d.grp1.length g.grp1.length with hlt | heq2 | hgt
    · -- the domain's first dash would sit inside the kind letters
      have hi : d.grp1.length < g.grp1.length := hlt
      have hk := G.kpre d.grp1.length hi
      rw [List.getElem?_eq_getElem hi] at hk
      have hup : (g.grp1[d.grp1.length]).isUpper = true :=
        idKinds_upper _ G.kindMem _ (List.getElem_mem _)
      rw [heq] at hk
      rw [D.dash1] at hk
      injection hk with hce
      rw [← hce] at hup
      exact absurd hup (by decide)
    · -- equal run lengths: position of the domain's 'H' is the generic
      -- match's first digit
      have hi : (0:Nat) < digitRun (text.drop (g.start + g.grp1.length + 1)) := by
        have h3 := G.threeLe; omega
      rcases digitRun_at text _ 0 hi with ⟨cc, hcc1, hcc2⟩
      rw [Nat.add_zero] at hcc1
      rw [heq, ← heq2] at hcc1
      rw [D.hChar] at hcc1
      injection hcc1 with hce
      rw [← hce] at hcc2
      exact absurd hcc2 (by decide)
    · -- the generic match's dash would sit inside the domain letters
      rcases D.upper g.grp1.length (by omega) with ⟨cc, hx, hup⟩
      rw [← heq] at hx
      rw [G.dash] at hx
      injection hx with hce
      rw [← hce] at hup
      exact absurd hup (by decide)
  -- Step A: the generic match cannot start before the domain match.
  have hA : ¬ g.start < d.start := by
    intro hlt
    rcases D.before with hz | ⟨c, hc1, hc2⟩
    · omega
    · by_cases hd3 : d.start - 1 = g.start + g.grp1.length
      · -- then the domain's first letters start in the digit run
        have hi : (0:Nat) < digitRun (text.drop (g.start + g.grp1.length + 1)) := by
          have h3 := G.threeLe; omega
        rcases digitRun_at text _ 0 hi with ⟨c1, hx1, hdig1⟩
        rw [Nat.add_zero] at hx1
        rw [show g.start + g.grp1.length + 1 = d.start from by omega] at hx1
        rcases D.upper 0 (by have := D.ulen; omega) with ⟨c2, hx2, hup2⟩
        rw [Nat.add_zero] at hx2
        rw [hx1] at hx2
        injection hx2 with hce
        exact digit_not_upper c1 hdig1 (by rw [hce]; exact hup2)
      · -- the word boundary before the domain match falls on a word character
        rcases idFacts_word text g G (d.start - 1) (by omega) (by omega) hd3
          with ⟨c', hc1', hc2'⟩
        rw [hc1'] at hc1
        injection hc1 with hce
        rw [hce] at hc2'
        rw [hc2] at hc2'
        exact absurd hc2' (by simp)
  have hds : d.start < g.start := by
    rcases Nat.lt_trichotomy g.start d.start with h | h | h
    · exact absurd h hA
    · exact absurd h hB
    · exact h
  refine ⟨by omega, ?_⟩
  -- Step C: the word boundary before the generic match must be one of
  -- the domain match's dashes.
  rcases G.before with hz | ⟨c, hc1, hc2⟩
  · omega
  · by_cases hD1 : g.start - 1 = d.start + d.grp1.length
    · -- the generic match is the trailing HR-NNN: its kind is HR and
      -- both matches share the digit run, hence the same stop.
      have hlen0 : 0 < g.grp1.length := by omega
      have hk0 : g.grp1[0]? = some 'H' := by
        have hk := G.kpre 0 hlen0
        rw [Nat.add_zero] at hk
        rw [show g.start = d.start + d.grp1.length + 1 from by omega] at hk
        rw [D.hChar] at hk
        exact hk.symm
      have hkHR : g.grp1 = chs "HR" := idKinds_firstH _ G.kindMem hk0
      have hk2 : g.grp1.length = 2 := by rw [hkHR]; rfl
      have hsuf : g.start + g.grp1.length + 1 = d.start + d.grp1.length + 4 := by
        omega
      have hg := G.stopEq
      rw [hsuf, ← D.stopEq] at hg
      omega
    · by_cases hD2 : g.start - 1 = d.start + d.grp1.length + 3
      · -- the generic match would start inside the digit run: its kind
        -- letter would be a digit
        exfalso
        have hlen0 : 0 < g.grp1.length := by omega
        have hk := G.kpre 0 hlen0
        rw [Nat.add_zero, List.getElem?_eq_getElem hlen0] at hk
        have hup : (g.grp1.get ⟨0, hlen0⟩).isUpper = true :=
          idKinds_upper _ G.kindMem _ (List.get_mem _ _ hlen0)
        have hi : (0:Nat) < digitRun (text.drop (d.start + d.grp1.length + 4)) := by
          have h3 := D.threeLe; omega
        rcases digitRun_at text _ 0 hi with ⟨cc, hcc1, hcc2⟩
        rw [Nat.add_zero] at hcc1
        rw [show d.start + d.grp1.length + 4 = g.start from by omega] at hcc1
        rw [hcc1] at hk
        injection hk with hce
        exact digit_not_upper cc hcc2 (by rw [hce]; exact hup)
      · -- otherwise the boundary character is a word character of the
        -- domain match
        exfalso
        rcases domFacts_word text d D (g.start - 1) (by omega) (by omega) hD1 hD2
          with ⟨c', hc1', hc2'⟩
        rw [hc1'] at hc1
        injection hc1 with hce
        rw [hce] at hc2'
        rw [hc2] at hc2'
        exact absurd hc2' (by simp)

/-- C2: `extract_ids` never counts a domain-prefixed match and a
generic match for overlapping text — any `ID_PATTERN` match whose span
overlaps a `DOMAIN_HR_PATTERN` match lies inside its span, so the
suppression filter of `extract_ids` (which drops exactly the generic
matches inside a domain span) removes it.  In particular, for the text
`SEC-HR-001` the identifier set contains `SEC-HR-001` and not a
separate generic `HR-001`. -/
theorem extract_ids_no_double_counting :
    (∀ (text : ChStr) (g d : RMatch), g ∈ idFinditer text → d ∈ domainFinditer text →
      g.start < d.stop → d.start < g.stop →
      is_inside_domain_hr g.start g.stop (domain_hr_spans text) = true) ∧
    (chs "SEC-HR-001") ∈ extract_ids (chs "SEC-HR-001") ∧
    ¬ (chs "HR-001") ∈ extract_ids (chs "SEC-HR-001") := by
  refine ⟨?_, by decide, by decide⟩
  intro text g d hg hd h1 h2
  have hcont := id_overlap_inside_domain text g d (idFinditer_facts text g hg)
    (domainFinditer_facts text d hd) h1 h2
  rw [is_inside_domain_hr, List.any_eq_true]
  refine ⟨(d.start, d.stop), ?_, ?_⟩
  · rw [domain_hr_spans]
    exact List.mem_map.2 ⟨d, hd, rfl⟩
  · simp only [Bool.and_eq_true, decide_eq_true_eq]
    exact ⟨hcont.1, hcont.2⟩

/-- Witness for `extract_ids_no_double_counting` at the text
`SEC-HR-001`, with its generic match `HR-001` at span (4, 10) and its
domain match `SEC-HR-001` at span (0, 10). -/
theorem extract_ids_no_double_counting_witness :
    is_inside_domain_hr 4 10 (domain_hr_spans (chs "SEC-HR-001")) = true :=
  extract_ids_no_double_counting.1 (chs "SEC-HR-001")
    ⟨4, 10, chs "HR", chs "001"⟩ ⟨0, 10, chs "SEC", chs "001"⟩
    (by decide) (by decide) (by decide) (by decide)
